import Mathlib

/-
Verification development for the amphora-rss feed renderer.

The renderer lives in src/index.js; the file holds two revisions of the same
module and the second (current) revision is the one embedded here: it is the
variant with the `elevateChannelCategories` toggle, the `imageIndex !== -1`
guard in `wrapInItem`, and the default-parameter constants `docsUrl` /
`generatorMessage`.

JavaScript values are embedded as the inductive `Val`; JavaScript objects are
association lists of fields, arrays are lists, and truthiness follows the
JavaScript rules (empty string, zero, null, undefined and false are falsy;
every object and array is truthy).  The wall clock consumed by
`feedMetaTags` (via date-fns `format` and `Date.getFullYear`) is passed
explicitly as a `Now` record.  The HTTP response and logger collaborators are
embedded as an effect trace (`Eff`): the orchestration in `render` is split
into the highland stream stage (whose `.errors` handler invokes `sendError`
and leaves the stream empty, so the promise resolves without a value) and the
promise stage (whose `.then` throws the no-data error on a falsy result, with
`.catch` invoking `sendError` again).
-/

namespace AmphoraRss

/-- Embedding of JavaScript values as used by the renderer: strings, numbers,
booleans, `null`, `undefined`, plain objects (association lists of fields, in
insertion order) and arrays. -/
inductive Val where
  | str (s : String)
  | num (n : Int)
  | jsBool (b : Bool)
  | null
  | undefined
  | obj (fields : List (String × Val))
  | arr (elems : List Val)

/-- JavaScript truthiness: empty string, zero, `false`, `null` and
`undefined` are falsy; every object and array is truthy. -/
def Val.truthy : Val → Bool
  | .str s => !s.isEmpty
  | .num n => n != 0
  | .jsBool b => b
  | .null => false
  | .undefined => false
  | .obj _ => true
  | .arr _ => true

/-- Property access `v[k]` / lodash `_get` on one step of a path: reading a
field of a non-object (or a missing field) yields `undefined`. -/
def getField : Val → String → Val
  | .obj fields, k =>
    match fields.find? (fun p => p.1 == k) with
    | some p => p.2
    | none => .undefined
  | _, _ => .undefined

/-- JavaScript `String(v)` as used by `Array.prototype.join`: `null` and
`undefined` render as the empty string, arrays render as the comma join of
their elements, plain objects as `[object Object]`. -/
def jsToStrDeep : Val → String
  | .str s => s
  | .num n => toString n
  | .jsBool b => if b then "true" else "false"
  | .null => ""
  | .undefined => ""
  | .obj _ => "[object Object]"
  | .arr xs => String.intercalate "," (xs.attach.map (fun p => jsToStrDeep p.1))
decreasing_by
  have h := List.sizeOf_lt_of_mem p.2
  simp only [Val.arr.sizeOf_spec]
  omega

/-- JavaScript `String(v)`, with the outermost step unfolded structurally
(identical in value to `jsToStrDeep`; nested arrays delegate to it). -/
def jsToStr : Val → String
  | .str s => s
  | .num n => toString n
  | .jsBool b => if b then "true" else "false"
  | .null => ""
  | .undefined => ""
  | .obj _ => "[object Object]"
  | .arr xs => String.intercalate "," (xs.map jsToStrDeep)

/-- lodash `_findIndex` restricted to a Boolean predicate: index of the first
element satisfying the predicate, `none` when there is none. -/
def jsFindIndex (p : Val → Bool) : List Val → Option Nat
  | [] => none
  | a :: l => if p a then some 0 else (jsFindIndex p l).map (fun n => n + 1)

/-- `findIndexOfElementInArray(array, element)` from src/index.js: the index
of the first element whose `element` property is truthy, `-1` when none is. -/
def findIndexOfElementInArray (array : List Val) (element : String) : Int :=
  match jsFindIndex (fun item => (getField item element).truthy) array with
  | some i => (i : Int)
  | none => -1

/-- The mutation performed by `wrapInItem` on the entry array it receives:
when the entry is non-empty and `findIndexOfElementInArray(entry, 'image')`
is not `-1`, `entry.splice(imageIndex, 1)` removes that one element in place.
This function is the value of the caller's array after the call. -/
def spliceImage (entry : List Val) : List Val :=
  if entry.length == 0 then entry
  else
    let imageIndex := findIndexOfElementInArray entry "image"
    if imageIndex == -1 then entry else entry.eraseIdx imageIndex.toNat

/-- `wrapInItem(entry)` from src/index.js: splice out the first truthy
`image` entry, then wrap the (spliced, aliased) array as `{ item: entry }`. -/
def wrapInItem (entry : List Val) : Val :=
  .obj [("item", .arr (spliceImage entry))]

/-- The body of the `group.map` callback of `elevateCategory`: keep the
truthy entries whose `category` is truthy, project the categories, and join
them with commas (one joined string per item). -/
def itemCategoryJoin (item : List Val) : String :=
  String.intercalate ","
    ((item.filter (fun entry => entry.truthy && (getField entry "category").truthy)).map
      (fun entry => jsToStr (getField entry "category")))

/-- Elements of a JavaScript array value; the destructured `{ item }` of an
`elevateCategory` group member is always a `wrapInItem` result, hence an
array (a non-array would make `item.filter` throw in the source). -/
def asArrOrEmpty : Val → List Val
  | .arr xs => xs
  | _ => []

/-- `elevateCategory(group)` from src/index.js: map every `{ item }` wrapper
to the comma join of its truthy `category` values, drop the falsy (empty)
strings, and wrap each survivor as a `{ category }` tag-record. -/
def elevateCategory (group : List Val) : List Val :=
  ((group.map (fun g => itemCategoryJoin (asArrOrEmpty (getField g "item")))).filter
    (fun s => !s.isEmpty)).map (fun s => Val.obj [("category", Val.str s)])

/-- `formatImageTag(url, link, title)` from src/index.js. -/
def formatImageTag (url link title : Val) : Val :=
  .obj [("image", .arr [.obj [("url", url)], .obj [("link", link)], .obj [("title", title)]])]

/-- The `meta` object handed to `feedMetaTags`.  A field the caller left out
is `Val.undefined`, which is exactly what JavaScript destructuring sees; the
destructuring defaults of the source (for `generator`, `docs` and
`elevateChannelCategories`) apply precisely to `undefined`. -/
structure Meta where
  title : Val
  description : Val
  link : Val
  copyright : Val
  generator : Val
  docs : Val
  opt : Val
  image : Val
  elevateChannelCategories : Val

/-- The wall clock observed by one `feedMetaTags` call: the date-fns
formatted `lastBuildDate` string and `now.getFullYear()`. -/
structure Now where
  formatted : String
  year : Int

/-- A destructuring default: used when the field is `undefined` (only). -/
def withDefault (v d : Val) : Val :=
  match v with
  | .undefined => d
  | x => x

/-- `Array.prototype.concat` with a single argument: an array argument is
spread, any other value is appended as one element. -/
def jsArrElems : Val → List Val
  | .arr xs => xs
  | x => [x]

def docsUrl : String := "http://blogs.law.harvard.edu/tech/rss"

def generatorMessage : String := "Feed delivered by Clay"

def requiredFieldsMsg : String :=
  "A `title`, `description` and `link` property are all required in the `meta` object for the RSS renderer"

def noDataMsg : String := "No data sent to XML renderer, cannot respond"

/-- The required-field check of `feedMetaTags`. -/
def validMeta (meta : Meta) : Bool :=
  meta.title.truthy && meta.description.truthy && meta.link.truthy

/-- `feedMetaTags(meta)(group)` from src/index.js: throwing is embedded as
`Except.error` carrying the thrown message. -/
def feedMetaTags (meta : Meta) (now : Now) (group : List Val) : Except String (List Val) :=
  let generator := withDefault meta.generator (.str generatorMessage)
  let docs := withDefault meta.docs (.str docsUrl)
  let elevateChannelCategories := withDefault meta.elevateChannelCategories (.jsBool true)
  if !validMeta meta then
    .error requiredFieldsMsg
  else
    let siteMeta : List Val :=
      [.obj [("title", meta.title)],
       .obj [("description", meta.description)],
       .obj [("link", meta.link)],
       .obj [("lastBuildDate", .str now.formatted)],
       .obj [("docs", docs)],
       .obj [("copyright", if meta.copyright.truthy then meta.copyright else .num now.year)],
       .obj [("generator", generator)]]
    let siteMeta := if meta.opt.truthy then siteMeta ++ jsArrElems meta.opt else siteMeta
    let siteMeta :=
      if meta.image.truthy then
        siteMeta ++ jsArrElems (formatImageTag (getField meta.image "url") meta.link meta.title)
      else siteMeta
    let channelCats := if elevateChannelCategories.truthy then elevateCategory group else []
    .ok (siteMeta ++ channelCats ++ group)

/-- `cleanNullValues(obj)` from src/index.js: delete every field whose value
is falsy. -/
def cleanNullValues (o : List (String × Val)) : List (String × Val) :=
  o.filter (fun p => p.2.truthy)

/-- One key of `Object.assign`: overwrite the value of an existing key in
place, append a fresh key at the end. -/
def setKey (o : List (String × Val)) (k : String) (v : Val) : List (String × Val) :=
  if o.any (fun p => p.1 == k) then
    o.map (fun p => if p.1 == k then (p.1, v) else p)
  else o ++ [(k, v)]

/-- `Object.assign(target, updates)`: apply the updates left to right. -/
def objAssign (target updates : List (String × Val)) : List (String × Val) :=
  updates.foldl (fun acc p => setKey acc p.1 p.2) target

def defaultNamespaces : List (String × Val) :=
  [("version", .str "2.0"),
   ("xmlns:content", .str "http://purl.org/rss/1.0/modules/content/"),
   ("xmlns:mi", .str "http://schemas.ingestion.microsoft.com/common/"),
   ("xmlns:dc", .str "http://purl.org/dc/elements/1.1/"),
   ("xmlns:media", .str "http://search.yahoo.com/mrss/")]

/-- `wrapInTopLevel(data, attr)` from src/index.js. -/
def wrapInTopLevel (data : List Val) (attr : List (String × Val)) : Val :=
  .obj [("rss", .arr
    [.obj [("_attr", .obj (cleanNullValues (objAssign defaultNamespaces attr)))],
     .obj [("channel", .arr data)]])]

/-- The attribute object of the root `rss` node of a rendered document. -/
def attrsOf (doc : Val) : List (String × Val) :=
  match getField doc "rss" with
  | .arr (first :: _) =>
    match getField first "_attr" with
    | .obj fields => fields
    | _ => []
  | _ => []

/-- The value `_get(feed[0][imageIndex], 'image.url')` computed by `render`
for a non-empty feed: `feed[0][-1]` is `undefined` when no entry of the first
item has a truthy `image` property. -/
def firstItemImageUrl (first : List Val) : Val :=
  let imageIndex := findIndexOfElementInArray first "image"
  let record := if imageIndex == -1 then Val.undefined else first.getD imageIndex.toNat Val.undefined
  getField (getField record "image") "url"

/-- The image-hoisting pre-step of `render`: when the feed is non-empty and
the first item yields a truthy `image.url`, `meta.image` is overwritten with
`{ url }`; otherwise `meta` is left as the caller passed it. -/
def hoistImage (feed : List (List Val)) (meta : Meta) : Meta :=
  match feed with
  | [] => meta
  | first :: _ =>
    let url := firstItemImageUrl first
    if url.truthy then
      Meta.mk meta.title meta.description meta.link meta.copyright meta.generator meta.docs
        meta.opt (Val.obj [("url", url)]) meta.elevateChannelCategories
    else meta

/-- The `{ feed, meta, attr }` payload of `render`. -/
structure RenderInput where
  feed : List (List Val)
  meta : Meta
  attr : List (String × Val)

/-- The channel contents produced by the stream stages
`.map(wrapInItem).collect().map(feedMetaTags(meta))` of `render`, after the
image hoist. -/
def renderChannel (inp : RenderInput) (now : Now) : Except String (List Val) :=
  feedMetaTags (hoistImage inp.feed inp.meta) now (inp.feed.map wrapInItem)

/-- The full stream pipeline of `render` up to `wrapInTopLevel`. -/
def renderPipeline (inp : RenderInput) (now : Now) : Except String Val :=
  (renderChannel inp now).map (fun data => wrapInTopLevel data inp.attr)

/-- Observable effects on the response / logging collaborators.  `send`
carries the document tree handed to the external `xml` serializer. -/
inductive Eff where
  | status (code : Int)
  | json (code : Int) (message : String)
  | logError (message : String)
  | contentType (mime : String)
  | send (doc : Val)

def Eff.isJson : Eff → Bool
  | .json _ _ => true
  | _ => false

def Eff.isSend : Eff → Bool
  | .send _ => true
  | _ => false

/-- `sendError(res, e)` from src/index.js: `res.status(500)`,
`res.json({ status, message })`, and `log('error', e.message, { stack })`. -/
def sendErrorEffs (message : String) : List Eff :=
  [.status 500, .json 500 message, .logError message]

/-- The highland stream stage of `render`: a throw inside the stream is
consumed by `.errors(e => sendError(res, e))` and the emptied stream makes
the promise resolve without a value. -/
def streamStage (inp : RenderInput) (now : Now) : List Eff × Option Val :=
  match renderPipeline inp now with
  | .error e => (sendErrorEffs e, none)
  | .ok v => ([], some v)

/-- The promise stage of `render`: `.then` throws the no-data error on a
falsy result (caught by `.catch`, which calls `sendError` again), and on a
truthy result sets the content type and sends the serialized document. -/
def promiseStage (data : Option Val) : List Eff :=
  match data with
  | some doc =>
    if doc.truthy then [.contentType "text/rss+xml", .send doc]
    else sendErrorEffs noDataMsg
  | none => sendErrorEffs noDataMsg

/-- The effect trace of one `render` call. -/
def renderEffects (inp : RenderInput) (now : Now) : List Eff :=
  (streamStage inp now).1 ++ promiseStage (streamStage inp now).2

/-- The caller's `feed` arrays after a `render` call: `wrapInItem` splices
each item array in place (`entry.splice(imageIndex, 1)`), so after the call
the caller's arrays hold the spliced contents. -/
def feedAfterRender (feed : List (List Val)) : List (List Val) :=
  feed.map spliceImage

/-- Does a record (object) carry a field named `k`? -/
def hasKey (v : Val) (k : String) : Bool :=
  match v with
  | .obj fields => fields.any (fun p => p.1 == k)
  | _ => false

/-- A channel tag-record keyed `category`. -/
def isCategoryRec (v : Val) : Bool := hasKey v "category"

/-- The tag-record `{ category: s }` exactly. -/
def isCategoryRecWith (s : String) (v : Val) : Bool :=
  match v with
  | .obj [("category", .str t)] => t == s
  | _ => false

/-- An emitted `item` wrapper that still contains an `image`-keyed record. -/
def itemHasImageKey (v : Val) : Bool :=
  match getField v "item" with
  | .arr entries => entries.any (fun r => hasKey r "image")
  | _ => false

/-- Count the channel records satisfying `p` (none on a failed render). -/
def channelCountP (inp : RenderInput) (now : Now) (p : Val → Bool) : Option Nat :=
  (renderChannel inp now).toOption.map (List.countP p)

/-- The channel record at position `i` (none on a failed render). -/
def channelNth (inp : RenderInput) (now : Now) (i : Nat) : Option Val :=
  (renderChannel inp now).toOption.bind (fun l => l.get? i)

/-- A meta object carrying only the three required fields. -/
def metaOf (title description link : Val) : Meta :=
  Meta.mk title description link .undefined .undefined .undefined .undefined .undefined .undefined

def exNow : Now := Now.mk "Thu, 01 Jan 2026 00:00:00 +0000" 2026

/-- The example feed of the specification: two items, categories News and
Tech. -/
def exFeedTwoCats : List (List Val) :=
  [[.obj [("title", .str "Ep1")], .obj [("category", .str "News")]],
   [.obj [("title", .str "Ep2")], .obj [("category", .str "Tech")]]]

def exMetaShow : Meta := metaOf (.str "Show") (.str "D") (.str "http://x")

/-- The predicate `findIndexOfElementInArray` scans with when it looks for
the `image` entry: the `image` property of the element is truthy. -/
def truthyImagePred (r : Val) : Bool := (getField r "image").truthy

/-- The derived channel category records, phrased over the raw feed: one
record per feed item (in feed order) holding the comma join of that item's
truthy `category` values, items whose join is empty being skipped; each item
is read after its in-place image splice. -/
def perItemCats (feed : List (List Val)) : List Val :=
  ((feed.map (fun item => itemCategoryJoin (spliceImage item))).filter
    (fun s => !s.isEmpty)).map (fun s => Val.obj [("category", Val.str s)])

/-- The seven leading channel records built by `feedMetaTags`. -/
def siteMetaBase (meta : Meta) (now : Now) : List Val :=
  [.obj [("title", meta.title)],
   .obj [("description", meta.description)],
   .obj [("link", meta.link)],
   .obj [("lastBuildDate", .str now.formatted)],
   .obj [("docs", withDefault meta.docs (.str docsUrl))],
   .obj [("copyright", if meta.copyright.truthy then meta.copyright else .num now.year)],
   .obj [("generator", withDefault meta.generator (.str generatorMessage))]]

/-- The channel records contributed by `meta.opt`. -/
def optPart (meta : Meta) : List Val :=
  if meta.opt.truthy then jsArrElems meta.opt else []

/-- The channel image record contributed by a truthy `meta.image`. -/
def imagePart (meta : Meta) : List Val :=
  if meta.image.truthy then
    [formatImageTag (getField meta.image "url") meta.link meta.title]
  else []

/-- The resolved `elevateChannelCategories` toggle (default `true`). -/
def elevateFlag (meta : Meta) : Bool :=
  (withDefault meta.elevateChannelCategories (.jsBool true)).truthy

/-- The tag-record `{ copyright: 0 }` exactly. -/
def isCopyrightZeroRec (v : Val) : Bool :=
  match v with
  | .obj [("copyright", .num n)] => n == 0
  | _ => false

/-- A meta with the required fields and the number `0` as `copyright`. -/
def exMetaCopyZero : Meta :=
  Meta.mk (.str "Show") (.str "D") (.str "http://x") (.num 0)
    .undefined .undefined .undefined .undefined .undefined

/-- A meta whose caller-supplied `image` value carries its own `link` and
`title` fields besides `url`. -/
def exMetaImage : Meta :=
  Meta.mk (.str "Show") (.str "D") (.str "http://x") .undefined .undefined .undefined .undefined
    (.obj [("url", .str "http://img"), ("link", .str "http://other"), ("title", .str "other")])
    .undefined

/-- A meta object with none of the required fields. -/
def exMetaEmpty : Meta := metaOf .undefined .undefined .undefined

/-- A meta object missing only `description`. -/
def exMetaNoDesc : Meta := metaOf (.str "T") .undefined (.str "http://l")

/-- The merge result the specification describes per key: the caller's
value when the key is supplied (kept only if truthy), else the default
namespace value (kept only if truthy), else nothing. -/
def mergedLookup (attr : List (String × Val)) (k : String) : Option Val :=
  match List.lookup k attr with
  | some v => if v.truthy then some v else none
  | none =>
    match List.lookup k defaultNamespaces with
    | some v => if v.truthy then some v else none
    | none => none

theorem getField_wrapInItem (entry : List Val) :
    getField (wrapInItem entry) "item" = Val.arr (spliceImage entry) := rfl

theorem elevateCategory_map_wrapInItem (feed : List (List Val)) :
    elevateCategory (feed.map wrapInItem) = perItemCats feed := by
  unfold elevateCategory perItemCats
  rw [List.map_map]
  rfl

theorem hoistImage_title (feed : List (List Val)) (meta : Meta) :
    (hoistImage feed meta).title = meta.title := by
  cases feed with
  | nil => rfl
  | cons first rest =>
    simp only [hoistImage]
    split <;> rfl

theorem hoistImage_description (feed : List (List Val)) (meta : Meta) :
    (hoistImage feed meta).description = meta.description := by
  cases feed with
  | nil => rfl
  | cons first rest =>
    simp only [hoistImage]
    split <;> rfl

theorem hoistImage_link (feed : List (List Val)) (meta : Meta) :
    (hoistImage feed meta).link = meta.link := by
  cases feed with
  | nil => rfl
  | cons first rest =>
    simp only [hoistImage]
    split <;> rfl

theorem hoistImage_copyright (feed : List (List Val)) (meta : Meta) :
    (hoistImage feed meta).copyright = meta.copyright := by
  cases feed with
  | nil => rfl
  | cons first rest =>
    simp only [hoistImage]
    split <;> rfl

theorem hoistImage_generator (feed : List (List Val)) (meta : Meta) :
    (hoistImage feed meta).generator = meta.generator := by
  cases feed with
  | nil => rfl
  | cons first rest =>
    simp only [hoistImage]
    split <;> rfl

theorem hoistImage_docs (feed : List (List Val)) (meta : Meta) :
    (hoistImage feed meta).docs = meta.docs := by
  cases feed with
  | nil => rfl
  | cons first rest =>
    simp only [hoistImage]
    split <;> rfl

theorem hoistImage_opt (feed : List (List Val)) (meta : Meta) :
    (hoistImage feed meta).opt = meta.opt := by
  cases feed with
  | nil => rfl
  | cons first rest =>
    simp only [hoistImage]
    split <;> rfl

theorem hoistImage_elevate (feed : List (List Val)) (meta : Meta) :
    (hoistImage feed meta).elevateChannelCategories = meta.elevateChannelCategories := by
  cases feed with
  | nil => rfl
  | cons first rest =>
    simp only [hoistImage]
    split <;> rfl

theorem validMeta_hoistImage (feed : List (List Val)) (meta : Meta) :
    validMeta (hoistImage feed meta) = validMeta meta := by
  unfold validMeta
  rw [hoistImage_title, hoistImage_description, hoistImage_link]

theorem siteMetaBase_hoistImage (feed : List (List Val)) (meta : Meta) (now : Now) :
    siteMetaBase (hoistImage feed meta) now = siteMetaBase meta now := by
  unfold siteMetaBase
  rw [hoistImage_title, hoistImage_description, hoistImage_link, hoistImage_copyright,
    hoistImage_generator, hoistImage_docs]

theorem optPart_hoistImage (feed : List (List Val)) (meta : Meta) :
    optPart (hoistImage feed meta) = optPart meta := by
  unfold optPart
  rw [hoistImage_opt]

theorem elevateFlag_hoistImage (feed : List (List Val)) (meta : Meta) :
    elevateFlag (hoistImage feed meta) = elevateFlag meta := by
  unfold elevateFlag
  rw [hoistImage_elevate]

theorem feedMetaTags_struct (meta : Meta) (now : Now) (group : List Val)
    (h : validMeta meta = true) :
    feedMetaTags meta now group =
      .ok (siteMetaBase meta now ++ optPart meta ++ imagePart meta ++
        (if elevateFlag meta then elevateCategory group else []) ++ group) := by
  unfold feedMetaTags
  rw [h]
  simp only [Bool.not_true, Bool.false_eq_true, if_false, ite_false]
  unfold siteMetaBase optPart imagePart elevateFlag
  by_cases ho : meta.opt.truthy = true <;>
    by_cases hi : meta.image.truthy = true <;>
      simp [ho, hi, jsArrElems, formatImageTag, List.append_assoc]

theorem renderChannel_struct (feed : List (List Val)) (meta : Meta) (now : Now)
    (attr : List (String × Val)) (h : validMeta meta = true) :
    renderChannel (RenderInput.mk feed meta attr) now =
      .ok (siteMetaBase meta now ++ optPart meta ++ imagePart (hoistImage feed meta) ++
        (if elevateFlag meta then perItemCats feed else []) ++ feed.map wrapInItem) := by
  unfold renderChannel
  rw [feedMetaTags_struct _ _ _ (by rw [validMeta_hoistImage]; exact h)]
  rw [siteMetaBase_hoistImage, optPart_hoistImage, elevateFlag_hoistImage,
    elevateCategory_map_wrapInItem]

/-- C1 counterexample: on the specification's own example feed (two items
with categories News and Tech) and meta, the rendered channel holds two
derived `category` tag-records, `News` and `Tech`, and no record with the
comma-joined value `News,Tech`; the claim predicts at most one derived
record with value `News,Tech`. -/
theorem C1_counterexample :
    channelCountP (RenderInput.mk exFeedTwoCats exMetaShow []) exNow isCategoryRec = some 2 ∧
    channelCountP (RenderInput.mk exFeedTwoCats exMetaShow []) exNow
      (isCategoryRecWith "News,Tech") = some 0 ∧
    channelCountP (RenderInput.mk exFeedTwoCats exMetaShow []) exNow
      (isCategoryRecWith "News") = some 1 ∧
    channelCountP (RenderInput.mk exFeedTwoCats exMetaShow []) exNow
      (isCategoryRecWith "Tech") = some 1 :=
  ⟨rfl, rfl, rfl, rfl⟩

/-- C1 (amended): with `elevateChannelCategories` truthy (its default) the
channel holds the derived category records `perItemCats feed` right before
the wrapped items: one record per feed item having at least one truthy
`category` value, in item order, each holding the comma join of that item's
truthy category values; with the toggle falsy no derived record is emitted;
and when no item has a truthy category there are no derived records at
all. -/
theorem C1_amended (feed : List (List Val)) (meta : Meta) (now : Now) (attr : List (String × Val))
    (h : validMeta meta = true) :
    (elevateFlag meta = true →
      ∃ sm, renderChannel (RenderInput.mk feed meta attr) now =
        .ok (sm ++ perItemCats feed ++ feed.map wrapInItem)) ∧
    (elevateFlag meta = false →
      ∃ sm, renderChannel (RenderInput.mk feed meta attr) now =
        .ok (sm ++ feed.map wrapInItem)) ∧
    ((∀ item ∈ feed, ∀ r ∈ item, (getField r "category").truthy = false) →
      perItemCats feed = []) := by
  refine ⟨?_, ?_, ?_⟩
  · intro he
    refine ⟨siteMetaBase meta now ++ optPart meta ++ imagePart (hoistImage feed meta), ?_⟩
    rw [renderChannel_struct feed meta now attr h, he]
    simp [List.append_assoc]
  · intro he
    refine ⟨siteMetaBase meta now ++ optPart meta ++ imagePart (hoistImage feed meta), ?_⟩
    rw [renderChannel_struct feed meta now attr h, he]
    simp [List.append_assoc]
  · intro hc
    unfold perItemCats
    have hjoin : ∀ item ∈ feed, itemCategoryJoin (spliceImage item) = "" := by
      intro item hit
      have hsub : ∀ r ∈ spliceImage item, r ∈ item := by
        intro r hr
        unfold spliceImage at hr
        split at hr
        · exact hr
        · dsimp only at hr
          split at hr
          · exact hr
          · exact (List.eraseIdx_sublist item _).subset hr
      unfold itemCategoryJoin
      have hfil : (spliceImage item).filter
          (fun e => e.truthy && (getField e "category").truthy) = [] := by
        rw [List.filter_eq_nil_iff]
        intro e he
        rw [hc item hit e (hsub e he)]
        simp
      rw [hfil]
      rfl
    have hnil : (feed.map (fun item => itemCategoryJoin (spliceImage item))).filter
        (fun s => !s.isEmpty) = [] := by
      rw [List.filter_eq_nil_iff]
      intro s hs
      rcases List.mem_map.mp hs with ⟨item, hit, rfl⟩
      rw [hjoin item hit]
      decide
    rw [hnil]
    rfl

/-- C1 witness: the amended statement applied to the specification's example
feed and meta. -/
theorem C1_witness :
    validMeta exMetaShow = true ∧
    ∃ sm, renderChannel (RenderInput.mk exFeedTwoCats exMetaShow []) exNow =
      .ok (sm ++ perItemCats exFeedTwoCats ++ exFeedTwoCats.map wrapInItem) :=
  ⟨rfl, (C1_amended exFeedTwoCats exMetaShow exNow [] rfl).1 rfl⟩

/-- C7 counterexample: with the supplied `copyright` value `0` (present but
falsy) and two categorized items, position 5 of the channel is
`{ copyright: 2026 }` (the current year) rather than the supplied value, no
record `{ copyright: 0 }` exists anywhere in the channel, and there are two
derived category records rather than at most one. -/
theorem C7_counterexample :
    channelNth (RenderInput.mk exFeedTwoCats exMetaCopyZero []) exNow 5 =
      some (Val.obj [("copyright", Val.num 2026)]) ∧
    channelCountP (RenderInput.mk exFeedTwoCats exMetaCopyZero []) exNow isCopyrightZeroRec =
      some 0 ∧
    channelCountP (RenderInput.mk exFeedTwoCats exMetaCopyZero []) exNow isCategoryRec =
      some 2 :=
  ⟨rfl, rfl, rfl⟩

/-- C7 (amended): for every valid meta the channel is exactly
`siteMetaBase` (title, description, link with the Meta values, then
lastBuildDate, docs, copyright, generator, where docs and generator take the
documented defaults when the fields are absent and copyright takes the
current year whenever the supplied value is falsy, not merely absent),
followed by `meta.opt` verbatim, followed by the image record derived from
the hoisted meta if any, followed by the derived category records (zero or
more, one per categorized item, in item order) if the toggle is truthy,
followed by the wrapped items in feed order. -/
theorem C7_amended (feed : List (List Val)) (meta : Meta) (now : Now) (attr : List (String × Val))
    (h : validMeta meta = true) :
    renderChannel (RenderInput.mk feed meta attr) now =
      .ok (siteMetaBase meta now ++ optPart meta ++ imagePart (hoistImage feed meta) ++
        (if elevateFlag meta then perItemCats feed else []) ++ feed.map wrapInItem) :=
  renderChannel_struct feed meta now attr h

/-- C7 witness: the amended channel shape at the concrete example input with
a falsy supplied copyright. -/
theorem C7_witness :
    validMeta exMetaCopyZero = true ∧
    renderChannel (RenderInput.mk exFeedTwoCats exMetaCopyZero []) exNow =
      .ok (siteMetaBase exMetaCopyZero exNow ++ optPart exMetaCopyZero ++
        imagePart (hoistImage exFeedTwoCats exMetaCopyZero) ++
        (if elevateFlag exMetaCopyZero then perItemCats exFeedTwoCats else []) ++
        exFeedTwoCats.map wrapInItem) :=
  ⟨rfl, C7_amended exFeedTwoCats exMetaCopyZero exNow [] rfl⟩

/-- C10: whenever the meta is valid and its `copyright` field is falsy (the
number 0, the empty string, or absent), the emitted `copyright` tag (channel
position 5) carries the current year: the defaulting is decided by
truthiness of the field, not by its absence. -/
theorem C10_copyright_truthiness (meta : Meta) (now : Now) (group : List Val)
    (h : validMeta meta = true) (hc : meta.copyright.truthy = false) :
    ∃ l, feedMetaTags meta now group = .ok l ∧
      l[5]? = some (Val.obj [("copyright", Val.num now.year)]) := by
  refine ⟨_, feedMetaTags_struct meta now group h, ?_⟩
  rw [List.append_assoc, List.append_assoc, List.append_assoc]
  rw [List.getElem?_append_left (by simp [siteMetaBase])]
  simp [siteMetaBase, hc]

/-- C10 witness: the supplied copyright `0` yields the year 2026 tag. -/
theorem C10_witness :
    validMeta exMetaCopyZero = true ∧ Val.truthy (exMetaCopyZero).copyright = false ∧
    ∃ l, feedMetaTags exMetaCopyZero exNow [] = .ok l ∧
      l[5]? = some (Val.obj [("copyright", Val.num 2026)]) :=
  ⟨rfl, rfl, C10_copyright_truthiness exMetaCopyZero exNow [] rfl rfl⟩

/-- C8: whenever the hoisted meta carries a truthy image, the channel record
right after the seven base records and the `opt` records is exactly
`{ image: [{ url }, { link }, { title }] }` in that order, with `url` read
from the hoisted image data and `link` and `title` copied from `Meta.link`
and `Meta.title` (not from whatever `link`/`title` fields the image value
itself may carry). -/
theorem C8_image_tag (feed : List (List Val)) (meta : Meta) (now : Now)
    (attr : List (String × Val)) (h : validMeta meta = true)
    (hi : Val.truthy (hoistImage feed meta).image = true) :
    ∃ l, renderChannel (RenderInput.mk feed meta attr) now = .ok l ∧
      l[7 + (optPart meta).length]? =
        some (Val.obj [("image", Val.arr
          [Val.obj [("url", getField (hoistImage feed meta).image "url")],
           Val.obj [("link", meta.link)],
           Val.obj [("title", meta.title)]])]) := by
  refine ⟨_, renderChannel_struct feed meta now attr h, ?_⟩
  rw [List.append_assoc, List.append_assoc, List.append_assoc]
  rw [List.getElem?_append_right (by simp [siteMetaBase])]
  have hlen : (siteMetaBase meta now).length = 7 := by simp [siteMetaBase]
  rw [hlen]
  rw [Nat.add_comm 7 (optPart meta).length, Nat.add_sub_cancel]
  rw [List.getElem?_append_right (Nat.le_refl _)]
  rw [Nat.sub_self]
  unfold imagePart
  rw [hi]
  simp [hoistImage_link, hoistImage_title, formatImageTag]

/-- C8 witness: a caller-supplied image value with its own `link` and
`title` fields; the emitted image record still copies `link` and `title`
from the meta. -/
theorem C8_witness :
    validMeta exMetaImage = true ∧ Val.truthy (hoistImage [] exMetaImage).image = true ∧
    ∃ l, renderChannel (RenderInput.mk [] exMetaImage []) exNow = .ok l ∧
      l[7 + (optPart exMetaImage).length]? =
        some (Val.obj [("image", Val.arr
          [Val.obj [("url", getField (hoistImage [] exMetaImage).image "url")],
           Val.obj [("link", (exMetaImage).link)],
           Val.obj [("title", (exMetaImage).title)]])]) :=
  ⟨rfl, rfl, C8_image_tag [] exMetaImage exNow [] rfl rfl⟩

theorem jsFindIndex_none_iff (p : Val → Bool) (l : List Val) :
    jsFindIndex p l = none ↔ ∀ x ∈ l, p x = false := by
  induction l with
  | nil => simp [jsFindIndex]
  | cons a t ih =>
    unfold jsFindIndex
    by_cases hp : p a = true
    · simp [hp]
    · rw [Bool.not_eq_true] at hp
      simp [hp, ih]

theorem jsFindIndex_lt_length (p : Val → Bool) :
    ∀ (l : List Val) (i : Nat), jsFindIndex p l = some i → i < l.length := by
  intro l
  induction l with
  | nil => intro i h; simp [jsFindIndex] at h
  | cons a t ih =>
    intro i h
    unfold jsFindIndex at h
    by_cases hp : p a = true
    · rw [if_pos hp] at h
      cases h
      simp
    · rw [if_neg hp] at h
      cases hfind : jsFindIndex p t with
      | none => rw [hfind] at h; cases h
      | some j =>
        rw [hfind] at h
        cases h
        have := ih j hfind
        simp
        omega

theorem jsFindIndex_some_of_mem (p : Val → Bool) :
    ∀ (l : List Val) (r : Val), r ∈ l → p r = true → ∃ i, jsFindIndex p l = some i := by
  intro l
  induction l with
  | nil => intro r hr; cases hr
  | cons a t ih =>
    intro r hr hp
    unfold jsFindIndex
    by_cases ha : p a = true
    · exact ⟨0, by rw [if_pos ha]⟩
    · rw [if_neg ha]
      cases hr with
      | head => exact absurd hp ha
      | tail _ hm =>
        rcases ih r hm hp with ⟨j, hj⟩
        exact ⟨j + 1, by rw [hj]; rfl⟩

/-- `spliceImage` in terms of the first index carrying a truthy `image`. -/
theorem spliceImage_eq (entry : List Val) :
    spliceImage entry =
      (match jsFindIndex truthyImagePred entry with
       | some i => entry.eraseIdx i
       | none => entry) := by
  cases entry with
  | nil => rfl
  | cons a t =>
    unfold spliceImage findIndexOfElementInArray
    have hp : (fun item => (getField item "image").truthy) = truthyImagePred := rfl
    rw [hp]
    cases hfind : jsFindIndex truthyImagePred (a :: t) with
    | none => simp
    | some i =>
      have hne : ((i : Int) == -1) = false := by
        rw [beq_eq_false_iff_ne]
        omega
      simp [hne]

theorem map_eq_self_of_mem (f : List Val → List Val) :
    ∀ (l : List (List Val)), l.map f = l → ∀ x ∈ l, f x = x := by
  intro l
  induction l with
  | nil => intro _ x hx; cases hx
  | cons a t ih =>
    intro h x hx
    simp only [List.map_cons, List.cons.injEq] at h
    cases hx with
    | head => exact h.1
    | tail _ hm => exact ih h.2 x hm

/-- C3 counterexample: an item whose first tag-record is keyed `image` but
carries a falsy value (the empty string): the claim demands that this record
be removed, yet `wrapInItem` wraps the item unchanged, because the scan
looks for a truthy `image` value, not for the key. -/
theorem C3_counterexample :
    wrapInItem [Val.obj [("image", Val.str "")], Val.obj [("title", Val.str "x")]] =
      Val.obj [("item",
        Val.arr [Val.obj [("image", Val.str "")], Val.obj [("title", Val.str "x")]])] ∧
    hasKey (Val.obj [("image", Val.str "")]) "image" = true :=
  ⟨rfl, rfl⟩

/-- C3 (amended): `wrapInItem` removes exactly the first tag-record whose
`image` value is truthy, the remaining records keeping their relative order;
when no record has a truthy `image` value (in particular when an
`image`-keyed record carries a falsy value) the item is wrapped entirely
unchanged. -/
theorem C3_amended (entry : List Val) :
    (∀ i, jsFindIndex truthyImagePred entry = some i →
      wrapInItem entry = Val.obj [("item", Val.arr (entry.take i ++ entry.drop (i + 1)))]) ∧
    (jsFindIndex truthyImagePred entry = none →
      wrapInItem entry = Val.obj [("item", Val.arr entry)]) := by
  constructor
  · intro i hf
    unfold wrapInItem
    rw [spliceImage_eq, hf]
    dsimp only
    rw [List.eraseIdx_eq_take_drop_succ]
  · intro hf
    unfold wrapInItem
    rw [spliceImage_eq, hf]

/-- C3 witness: the amended statement at an item with a truthy image record
in first position. -/
theorem C3_witness :
    jsFindIndex truthyImagePred
      [Val.obj [("image", Val.obj [("url", Val.str "u")])], Val.obj [("title", Val.str "x")]] =
      some 0 ∧
    wrapInItem [Val.obj [("image", Val.obj [("url", Val.str "u")])],
        Val.obj [("title", Val.str "x")]] =
      Val.obj [("item", Val.arr [Val.obj [("title", Val.str "x")]])] :=
  ⟨rfl, (C3_amended [Val.obj [("image", Val.obj [("url", Val.str "u")])],
    Val.obj [("title", Val.str "x")]]).1 0 rfl⟩

/-- C9 counterexample: a non-empty feed item with no image record: the claim
asserts that `wrapInItem` removes a tag-record from every non-empty item
array and that the input feed is never preserved, yet here nothing is
removed and the caller's feed is exactly preserved across the render. -/
theorem C9_counterexample :
    feedAfterRender [[Val.obj [("title", Val.str "t")]]] =
      [[Val.obj [("title", Val.str "t")]]] ∧
    (spliceImage [Val.obj [("title", Val.str "t")]]).length = 1 :=
  ⟨rfl, rfl⟩

/-- C9 (amended): `render` does splice the caller's item arrays in place,
but only where a truthy `image` record exists: the caller's feed is
preserved across a render call exactly when no item contains a tag-record
with a truthy `image` value. -/
theorem C9_amended (feed : List (List Val)) :
    feedAfterRender feed = feed ↔
      ∀ item ∈ feed, ∀ r ∈ item, truthyImagePred r = false := by
  constructor
  · intro h item hit r hr
    have hfix : spliceImage item = item :=
      map_eq_self_of_mem spliceImage feed h item hit
    by_contra hp
    rw [Bool.not_eq_false] at hp
    rcases jsFindIndex_some_of_mem truthyImagePred item r hr hp with ⟨i, hi⟩
    have hlt : i < item.length := jsFindIndex_lt_length truthyImagePred item i hi
    have hlen : (item.eraseIdx i).length + 1 = item.length :=
      List.length_eraseIdx_add_one hlt
    rw [spliceImage_eq, hi] at hfix
    dsimp only at hfix
    rw [hfix] at hlen
    omega
  · intro h
    unfold feedAfterRender
    have : ∀ item ∈ feed, spliceImage item = item := by
      intro item hit
      rw [spliceImage_eq, (jsFindIndex_none_iff truthyImagePred item).mpr (h item hit)]
    calc feed.map spliceImage = feed.map id := List.map_congr_left this
      _ = feed := List.map_id feed

/-- C9 witness: the amended equivalence applied in both directions at
concrete feeds, one with a truthy image record (not preserved) and one
without (preserved). -/
theorem C9_witness :
    feedAfterRender [[Val.obj [("link", Val.str "l")]]] = [[Val.obj [("link", Val.str "l")]]] ∧
    feedAfterRender [[Val.obj [("image", Val.obj [("url", Val.str "u")])]]] ≠
      [[Val.obj [("image", Val.obj [("url", Val.str "u")])]]] := by
  constructor
  · exact (C9_amended [[Val.obj [("link", Val.str "l")]]]).mpr (by
      intro item hit r hr
      simp at hit
      subst hit
      simp at hr
      subst hr
      rfl)
  · intro h
    have := (C9_amended [[Val.obj [("image", Val.obj [("url", Val.str "u")])]]]).mp h
    have hx := this [Val.obj [("image", Val.obj [("url", Val.str "u")])]] (by simp)
      (Val.obj [("image", Val.obj [("url", Val.str "u")])]) (by simp)
    simp [truthyImagePred, getField, Val.truthy] at hx

/-- C2 counterexample: on a meta missing its required fields the error
thrown by the metadata assembler inside the stream is routed to the Error
Responder twice, not exactly once: once by the stream's `.errors` handler
and once by the promise `.catch` after the no-data check (the emptied stream
resolves without a value), so two JSON error bodies are written for one
failed render. -/
theorem C2_counterexample :
    renderEffects (RenderInput.mk [] exMetaEmpty []) exNow =
      sendErrorEffs requiredFieldsMsg ++ sendErrorEffs noDataMsg ∧
    (renderEffects (RenderInput.mk [] exMetaEmpty []) exNow).countP Eff.isJson = 2 :=
  ⟨rfl, rfl⟩

/-- C2 (amended): every failed render routes the error to the Error
Responder and writes no XML success output, but an error raised inside the
stream stage reaches the Error Responder twice (stream error handler, then
promise catch after the no-data check); a successful render writes exactly
the content type and the serialized document, and never invokes the Error
Responder. -/
theorem C2_amended (inp : RenderInput) (now : Now) :
    (∀ e, renderPipeline inp now = .error e →
      renderEffects inp now = sendErrorEffs e ++ sendErrorEffs noDataMsg ∧
      (renderEffects inp now).countP Eff.isJson = 2 ∧
      (renderEffects inp now).countP Eff.isSend = 0) ∧
    (∀ doc, renderPipeline inp now = .ok doc →
      renderEffects inp now = [.contentType "text/rss+xml", .send doc] ∧
      (renderEffects inp now).countP Eff.isJson = 0) := by
  constructor
  · intro e he
    have hs : streamStage inp now = (sendErrorEffs e, none) := by
      unfold streamStage
      rw [he]
    unfold renderEffects
    rw [hs]
    exact ⟨rfl, rfl, rfl⟩
  · intro doc hd
    have htruthy : doc.truthy = true := by
      unfold renderPipeline at hd
      cases hc : renderChannel inp now with
      | error e =>
        rw [hc] at hd
        simp [Except.map] at hd
      | ok data =>
        rw [hc] at hd
        simp only [Except.map] at hd
        cases hd
        rfl
    have hs : streamStage inp now = ([], some doc) := by
      unfold streamStage
      rw [hd]
    unfold renderEffects
    rw [hs]
    unfold promiseStage
    dsimp only
    rw [htruthy]
    exact ⟨rfl, rfl⟩

/-- C2 witness: the error branch of the amended statement at a concrete
failing input with a non-empty feed. -/
theorem C2_witness :
    renderEffects (RenderInput.mk [[Val.obj [("title", Val.str "Ep")]]] exMetaNoDesc []) exNow =
      sendErrorEffs requiredFieldsMsg ++ sendErrorEffs noDataMsg ∧
    (renderEffects (RenderInput.mk [[Val.obj [("title", Val.str "Ep")]]] exMetaNoDesc [])
      exNow).countP Eff.isJson = 2 ∧
    (renderEffects (RenderInput.mk [[Val.obj [("title", Val.str "Ep")]]] exMetaNoDesc [])
      exNow).countP Eff.isSend = 0 :=
  (C2_amended (RenderInput.mk [[Val.obj [("title", Val.str "Ep")]]] exMetaNoDesc []) exNow).1
    requiredFieldsMsg rfl

/-- C5: whenever a required meta field (`title`, `description` or `link`) is
absent or otherwise falsy, the pipeline fails with the required-field
message before producing any channel output, the first response writes are
status 500 and the JSON body carrying that message, no XML is ever sent, and
the message is logged at error severity. -/
theorem C5_missing_required (inp : RenderInput) (now : Now)
    (h : validMeta (inp.meta) = false) :
    renderPipeline inp now = .error requiredFieldsMsg ∧
    (renderEffects inp now).take 3 = sendErrorEffs requiredFieldsMsg ∧
    (renderEffects inp now).countP Eff.isSend = 0 ∧
    Eff.logError requiredFieldsMsg ∈ renderEffects inp now := by
  have hv : validMeta (hoistImage (inp.feed) (inp.meta)) = false := by
    rw [validMeta_hoistImage]
    exact h
  have hp : renderPipeline inp now = .error requiredFieldsMsg := by
    unfold renderPipeline renderChannel feedMetaTags
    rw [hv]
    rfl
  have hs : streamStage inp now = (sendErrorEffs requiredFieldsMsg, none) := by
    unfold streamStage
    rw [hp]
  refine ⟨hp, ?_, ?_, ?_⟩ <;>
    · unfold renderEffects
      rw [hs]
      simp [sendErrorEffs, promiseStage, Eff.isSend]

/-- C5 witness: meta missing only `description`. -/
theorem C5_witness :
    validMeta exMetaNoDesc = false ∧
    renderPipeline (RenderInput.mk [] exMetaNoDesc []) exNow = .error requiredFieldsMsg ∧
    (renderEffects (RenderInput.mk [] exMetaNoDesc []) exNow).take 3 =
      sendErrorEffs requiredFieldsMsg ∧
    (renderEffects (RenderInput.mk [] exMetaNoDesc []) exNow).countP Eff.isSend = 0 ∧
    Eff.logError requiredFieldsMsg ∈ renderEffects (RenderInput.mk [] exMetaNoDesc []) exNow :=
  ⟨rfl, C5_missing_required (RenderInput.mk [] exMetaNoDesc []) exNow rfl⟩

theorem hasKey_of_truthyImage (r : Val) (h : truthyImagePred r = true) :
    hasKey r "image" = true := by
  cases r with
  | obj fields =>
    unfold truthyImagePred getField at h
    unfold hasKey
    dsimp only at h ⊢
    cases hfind : fields.find? (fun q => q.1 == "image") with
    | none =>
      rw [hfind] at h
      exact absurd h (by decide)
    | some q =>
      rw [List.any_eq_true]
      have hkey := List.find?_some hfind
      exact ⟨q, List.mem_of_find?_eq_some hfind, hkey⟩
  | str s => simp [truthyImagePred, getField, Val.truthy] at h
  | num n => simp [truthyImagePred, getField, Val.truthy] at h
  | jsBool b => simp [truthyImagePred, getField, Val.truthy] at h
  | null => simp [truthyImagePred, getField, Val.truthy] at h
  | undefined => simp [truthyImagePred, getField, Val.truthy] at h
  | arr xs => simp [truthyImagePred, getField, Val.truthy] at h

theorem jsFindIndex_some_spec (p : Val → Bool) :
    ∀ (l : List Val) (i : Nat), jsFindIndex p l = some i →
      (∃ x, l.drop i = x :: l.drop (i + 1) ∧ p x = true) ∧
      ∀ r ∈ l.take i, p r = false := by
  intro l
  induction l with
  | nil => intro i h; simp [jsFindIndex] at h
  | cons a t ih =>
    intro i h
    unfold jsFindIndex at h
    by_cases hp : p a = true
    · rw [if_pos hp] at h
      cases h
      exact ⟨⟨a, rfl, hp⟩, by intro r hr; cases hr⟩
    · rw [if_neg hp] at h
      rw [Bool.not_eq_true] at hp
      cases hfind : jsFindIndex p t with
      | none => rw [hfind] at h; cases h
      | some j =>
        rw [hfind] at h
        cases h
        rcases ih j hfind with ⟨⟨x, hdrop, hx⟩, htake⟩
        refine ⟨⟨x, ?_, hx⟩, ?_⟩
        · rw [List.drop_succ_cons, List.drop_succ_cons]
          exact hdrop
        · intro r hr
          rw [List.take_succ_cons] at hr
          cases hr with
          | head => exact hp
          | tail _ hm => exact htake r hm

/-- C4 counterexample: an item whose `image`-keyed record carries a falsy
value (the empty string): the claim says an image tag-record never appears
in the emitted `item` node, yet the rendered channel contains exactly one
`item` wrapper still holding an `image`-keyed record. -/
theorem C4_counterexample :
    channelCountP (RenderInput.mk
      [[Val.obj [("image", Val.str "")], Val.obj [("title", Val.str "t")]]]
      exMetaShow []) exNow itemHasImageKey = some 1 :=
  rfl

/-- C4 (amended): in any item carrying at most one `image`-keyed record, no
record with a truthy `image` value survives the splice into the emitted
`item` node (falsy-valued image records are kept); the hoisting step reads
only the first feed item (later items never influence it), leaves the meta
untouched when the first item's `image.url` is falsy, and overwrites
`meta.image` with exactly `{ url }` when it is truthy. -/
theorem C4_amended (meta : Meta) :
    (∀ item : List Val, item.countP (fun r => hasKey r "image") ≤ 1 →
      ∀ r ∈ spliceImage item, truthyImagePred r = false) ∧
    (∀ (first : List Val) (rest1 rest2 : List (List Val)),
      hoistImage (first :: rest1) meta = hoistImage (first :: rest2) meta) ∧
    (∀ (first : List Val) (rest : List (List Val)),
      Val.truthy (firstItemImageUrl first) = false →
      hoistImage (first :: rest) meta = meta) ∧
    (∀ (first : List Val) (rest : List (List Val)),
      Val.truthy (firstItemImageUrl first) = true →
      (hoistImage (first :: rest) meta).image = Val.obj [("url", firstItemImageUrl first)]) := by
  refine ⟨?_, ?_, ?_, ?_⟩
  · intro item hcount r hr
    by_contra hpc
    rw [Bool.not_eq_false] at hpc
    cases hfind : jsFindIndex truthyImagePred item with
    | none =>
      rw [spliceImage_eq, hfind] at hr
      dsimp only at hr
      have hall := (jsFindIndex_none_iff truthyImagePred item).mp hfind r hr
      rw [hall] at hpc
      cases hpc
    | some i =>
      rw [spliceImage_eq, hfind] at hr
      dsimp only at hr
      rw [List.eraseIdx_eq_take_drop_succ] at hr
      rcases jsFindIndex_some_spec truthyImagePred item i hfind with ⟨⟨x, hdrop, hx⟩, htake⟩
      rcases List.mem_append.mp hr with htk | hdp
      · rw [htake r htk] at hpc
        cases hpc
      · have hxkey : hasKey x "image" = true := hasKey_of_truthyImage x hx
        have hrkey : hasKey r "image" = true := hasKey_of_truthyImage r hpc
        have hsplit : item.countP (fun q => hasKey q "image") =
            (item.take i).countP (fun q => hasKey q "image") +
            (x :: item.drop (i + 1)).countP (fun q => hasKey q "image") := by
          conv_lhs => rw [← List.take_append_drop i item]
          rw [List.countP_append, hdrop]
        have hpos : 0 < (item.drop (i + 1)).countP (fun q => hasKey q "image") :=
          List.countP_pos_iff.mpr ⟨r, hdp, hrkey⟩
        have hc2 := hcount
        rw [hsplit, List.countP_cons, hxkey] at hc2
        simp at hc2
        omega
  · intro first rest1 rest2
    rfl
  · intro first rest h
    unfold hoistImage
    dsimp only
    rw [h]
    rfl
  · intro first rest h
    unfold hoistImage
    dsimp only
    rw [h]
    rfl

/-- C4 witness: the hoist branch of the amended statement at a first item
carrying a truthy image record. -/
theorem C4_witness :
    Val.truthy (firstItemImageUrl [Val.obj [("image", Val.obj [("url", Val.str "u")])]]) = true ∧
    (hoistImage [[Val.obj [("image", Val.obj [("url", Val.str "u")])]]] exMetaShow).image =
      Val.obj [("url",
        firstItemImageUrl [Val.obj [("image", Val.obj [("url", Val.str "u")])]])] :=
  ⟨rfl, (C4_amended exMetaShow).2.2.2 [Val.obj [("image", Val.obj [("url", Val.str "u")])]]
    [] rfl⟩

theorem lookup_append_first (l1 l2 : List (String × Val)) (k : String) :
    List.lookup k (l1 ++ l2) =
      match List.lookup k l1 with
      | some v => some v
      | none => List.lookup k l2 := by
  induction l1 with
  | nil => rfl
  | cons a t ih =>
    by_cases hk : (k == a.1) = true <;> simp [List.lookup, hk, ih]

theorem lookup_eq_none_of_not_mem_keys (l : List (String × Val)) (k : String)
    (h : k ∉ l.map Prod.fst) : List.lookup k l = none := by
  induction l with
  | nil => rfl
  | cons a t ih =>
    have h1 : ¬(k = a.1) := by
      intro he
      exact h (by rw [List.map_cons, he]; exact List.mem_cons_self _ _)
    have h2 : k ∉ t.map Prod.fst := by
      intro hm
      exact h (by rw [List.map_cons]; exact List.mem_cons_of_mem _ hm)
    have hk : (k == a.1) = false := beq_eq_false_iff_ne.mpr h1
    simp [List.lookup, hk, ih h2]

theorem lookup_cons_eq (k k1 : String) (v1 : Val) (l : List (String × Val)) :
    List.lookup k ((k1, v1) :: l) =
      if (k == k1) = true then some v1 else List.lookup k l := by
  cases hek : k == k1 <;> simp [List.lookup, hek]

theorem lookup_isSome_of_mem_keys (l : List (String × Val)) (k : String)
    (h : k ∈ l.map Prod.fst) : ∃ w, List.lookup k l = some w := by
  induction l with
  | nil => cases h
  | cons a t ih =>
    obtain ⟨k1, v1⟩ := a
    rw [lookup_cons_eq]
    by_cases hk : (k == k1) = true
    · exact ⟨v1, by rw [if_pos hk]⟩
    · rw [if_neg hk]
      apply ih
      rw [List.map_cons] at h
      cases List.mem_cons.mp h with
      | inl he => exact absurd (by rw [he]; exact beq_self_eq_true k1) hk
      | inr hm => exact hm

theorem lookup_map_overwrite (k k' : String) (v : Val) (t : List (String × Val)) :
    List.lookup k (t.map (fun p => if p.1 == k' then (p.1, v) else p)) =
      (List.lookup k t).map (fun w => if k == k' then v else w) := by
  induction t with
  | nil => rfl
  | cons a s ih =>
    obtain ⟨k1, v1⟩ := a
    simp only [List.map_cons]
    by_cases hak : (k1 == k') = true
    · rw [if_pos hak, lookup_cons_eq, lookup_cons_eq]
      by_cases hk : (k == k1) = true
      · have hkk : (k == k') = true := by
          rw [eq_of_beq hk, eq_of_beq hak]
          exact beq_self_eq_true k'
        rw [if_pos hk, if_pos hk]
        dsimp only [Option.map]
        rw [if_pos hkk]
      · rw [if_neg hk, if_neg hk, ih]
    · rw [if_neg hak, lookup_cons_eq, lookup_cons_eq]
      by_cases hk : (k == k1) = true
      · have hkk : ¬((k == k') = true) := by
          intro hb
          have h1 : k = k1 := eq_of_beq hk
          have h2 : k = k' := eq_of_beq hb
          exact hak (by rw [← h1, h2]; exact beq_self_eq_true k')
        rw [if_pos hk, if_pos hk]
        dsimp only [Option.map]
        rw [if_neg hkk]
      · rw [if_neg hk, if_neg hk, ih]

theorem lookup_setKey (t : List (String × Val)) (k k' : String) (v : Val) :
    List.lookup k (setKey t k' v) = if k == k' then some v else List.lookup k t := by
  unfold setKey
  by_cases hmem : t.any (fun p => p.1 == k') = true
  · rw [if_pos hmem, lookup_map_overwrite]
    cases hlk : List.lookup k t with
    | some w =>
      dsimp only [Option.map]
      by_cases hk : (k == k') = true
      · rw [if_pos hk, if_pos hk]
      · rw [if_neg hk, if_neg hk]
    | none =>
      dsimp only [Option.map]
      by_cases hk : (k == k') = true
      · exfalso
        rcases List.any_eq_true.mp hmem with ⟨p, hp, hpk⟩
        have hke : k = k' := eq_of_beq hk
        have hmemk : k ∈ t.map Prod.fst := by
          rw [hke, ← eq_of_beq hpk]
          exact List.mem_map.mpr ⟨p, hp, rfl⟩
        rcases lookup_isSome_of_mem_keys t k hmemk with ⟨w, hw⟩
        rw [hw] at hlk
        cases hlk
      · rw [if_neg hk]
  · rw [if_neg hmem, lookup_append_first]
    by_cases hk : (k == k') = true
    · have hke : k = k' := eq_of_beq hk
      have hnone : List.lookup k t = none := by
        apply lookup_eq_none_of_not_mem_keys
        intro hin
        rcases List.mem_map.mp hin with ⟨p, hp, hpk⟩
        exact hmem (List.any_eq_true.mpr ⟨p, hp, by rw [hpk, ← hke]; exact beq_self_eq_true k⟩)
      rw [hnone, if_pos hk]
      dsimp only
      rw [lookup_cons_eq, if_pos hk]
    · rw [if_neg hk]
      cases hlk : List.lookup k t with
      | some w => rfl
      | none =>
        dsimp only
        rw [lookup_cons_eq, if_neg hk]
        rfl

theorem lookup_objAssign (updates : List (String × Val)) :
    ∀ (t : List (String × Val)) (k : String),
      List.lookup k (objAssign t updates) =
        match List.lookup k updates.reverse with
        | some v => some v
        | none => List.lookup k t := by
  induction updates with
  | nil => intro t k; rfl
  | cons u us ih =>
    intro t k
    have hstep : objAssign t (u :: us) = objAssign (setKey t u.1 u.2) us := rfl
    rw [hstep, ih, List.reverse_cons, lookup_append_first, lookup_setKey]
    cases List.lookup k us.reverse with
    | some w => rfl
    | none =>
      by_cases hk : (k == u.1) = true <;> simp [List.lookup, hk]

theorem lookup_reverse_of_nodup_keys (attr : List (String × Val))
    (h : (attr.map Prod.fst).Nodup) (k : String) :
    List.lookup k attr.reverse = List.lookup k attr := by
  induction attr with
  | nil => rfl
  | cons a t ih =>
    have h1 : a.1 ∉ t.map Prod.fst := (List.nodup_cons.mp (by rwa [List.map_cons] at h)).1
    have h2 : (t.map Prod.fst).Nodup := (List.nodup_cons.mp (by rwa [List.map_cons] at h)).2
    rw [List.reverse_cons, lookup_append_first, ih h2]
    by_cases hk : (k == a.1) = true
    · have hke : k = a.1 := eq_of_beq hk
      have hnone : List.lookup k t = none :=
        lookup_eq_none_of_not_mem_keys t k (by rw [hke]; exact h1)
      simp [List.lookup, hk, hnone]
    · simp [List.lookup, hk]
      cases List.lookup k t <;> rfl

theorem lookup_cleanNullValues (o : List (String × Val))
    (h : (o.map Prod.fst).Nodup) (k : String) :
    List.lookup k (cleanNullValues o) =
      match List.lookup k o with
      | some v => if v.truthy then some v else none
      | none => none := by
  induction o with
  | nil => rfl
  | cons a t ih =>
    have h1 : a.1 ∉ t.map Prod.fst := (List.nodup_cons.mp (by rwa [List.map_cons] at h)).1
    have h2 : (t.map Prod.fst).Nodup := (List.nodup_cons.mp (by rwa [List.map_cons] at h)).2
    unfold cleanNullValues
    rw [List.filter_cons]
    by_cases hv : a.2.truthy = true
    · rw [if_pos hv]
      by_cases hk : (k == a.1) = true
      · simp [List.lookup, hk, hv]
      · simp only [List.lookup, hk]
        exact ih h2
    · rw [if_neg hv]
      by_cases hk : (k == a.1) = true
      · have hke : k = a.1 := eq_of_beq hk
        have hnone : List.lookup k t = none :=
          lookup_eq_none_of_not_mem_keys t k (by rw [hke]; exact h1)
        have hclean : List.lookup k (cleanNullValues t) = none := by
          rw [ih h2, hnone]
        unfold cleanNullValues at hclean
        rw [hclean]
        simp [List.lookup, hk, hv]
      · simp only [List.lookup, hk]
        exact ih h2

theorem nodup_keys_setKey (t : List (String × Val)) (k : String) (v : Val)
    (h : (t.map Prod.fst).Nodup) : ((setKey t k v).map Prod.fst).Nodup := by
  unfold setKey
  by_cases hmem : t.any (fun p => p.1 == k) = true
  · rw [if_pos hmem]
    have hkeys : (t.map (fun p => if p.1 == k then (p.1, v) else p)).map Prod.fst =
        t.map Prod.fst := by
      rw [List.map_map]
      apply List.map_congr_left
      intro p _
      dsimp only [Function.comp]
      split <;> rfl
    rw [hkeys]
    exact h
  · rw [if_neg hmem]
    rw [List.map_append]
    have hk : k ∉ t.map Prod.fst := by
      intro hin
      rcases List.mem_map.mp hin with ⟨p, hp, hpk⟩
      exact hmem (List.any_eq_true.mpr ⟨p, hp, by rw [hpk]; exact beq_self_eq_true k⟩)
    rw [List.nodup_append]
    refine ⟨h, List.nodup_singleton k, ?_⟩
    intro x hx hx'
    simp only [List.map_cons, List.map_nil, List.mem_singleton] at hx'
    exact hk (hx' ▸ hx)

theorem nodup_keys_objAssign (updates : List (String × Val)) :
    ∀ t : List (String × Val), (t.map Prod.fst).Nodup →
      ((objAssign t updates).map Prod.fst).Nodup := by
  induction updates with
  | nil => intro t h; exact h
  | cons u us ih =>
    intro t h
    exact ih (setKey t u.1 u.2) (nodup_keys_setKey t u.1 u.2 h)

/-- C6: for every attribute-override map with distinct keys, the root `rss`
attributes are exactly the default namespace set merged with the overrides
where the caller wins per key, after which every falsy-valued attribute is
dropped entirely: looking up any key in the rendered root attributes gives
the caller's value if supplied and truthy, nothing if supplied and falsy,
else the (truthy) default, else nothing. -/
theorem C6_attrs (data : List Val) (attr : List (String × Val))
    (h : (attr.map Prod.fst).Nodup) (k : String) :
    List.lookup k (attrsOf (wrapInTopLevel data attr)) = mergedLookup attr k := by
  have hattrs : attrsOf (wrapInTopLevel data attr) =
      cleanNullValues (objAssign defaultNamespaces attr) := rfl
  have hnd : ((objAssign defaultNamespaces attr).map Prod.fst).Nodup :=
    nodup_keys_objAssign attr defaultNamespaces (by decide)
  rw [hattrs, lookup_cleanNullValues _ hnd k, lookup_objAssign attr defaultNamespaces k,
    lookup_reverse_of_nodup_keys attr h k]
  unfold mergedLookup
  cases List.lookup k attr with
  | some v => rfl
  | none => cases List.lookup k defaultNamespaces with
    | some v => rfl
    | none => rfl

/-- C6 witness: `attr = [("xmlns:custom", null)]` yields a root element with
no `xmlns:custom` attribute, while an untouched default key keeps its
default value. -/
theorem C6_witness :
    (([("xmlns:custom", Val.null)] : List (String × Val)).map Prod.fst).Nodup ∧
    List.lookup "xmlns:custom" (attrsOf (wrapInTopLevel [] [("xmlns:custom", Val.null)])) =
      none ∧
    List.lookup "version" (attrsOf (wrapInTopLevel [] [("xmlns:custom", Val.null)])) =
      some (Val.str "2.0") := by
  refine ⟨by decide, ?_, ?_⟩
  · rw [C6_attrs [] [("xmlns:custom", Val.null)] (by decide) "xmlns:custom"]
    rfl
  · rw [C6_attrs [] [("xmlns:custom", Val.null)] (by decide) "version"]
    rfl

end AmphoraRss
